import Mathlib

/-
Verification of src/scripts/restore-test-file.py.

The script reads one file, applies an ordered sequence of string
substitutions, and writes the result.  We embed the content
transformation as functions on List Char (Python str is a sequence of
Unicode code points, which Lean Char models exactly), and the file
handling as a function on an explicit filesystem state.

Substitutions are embedded as parsed by the Python grammar.  Note that
on lines 24 and 25 of the script the two single-quote characters that
were meant to delimit a one-character pattern instead form a
triple-quoted string literal spanning both lines, so the two statements
merge into a single call whose pattern is a 63-character ASCII string
(quotePat below) and whose replacement is one apostrophe; and on lines
26 and 27 the pattern and the replacement are both the straight ASCII
double quote, so those calls replace a character with itself.
-/

/-- Embedding of Python str.replace for a nonempty pattern, with explicit
structural fuel: scan left to right, replace each non-overlapping
occurrence of pat by repl, and resume scanning after the replaced
occurrence.  An empty pattern makes the call the identity (no call in
the script passes one). -/
def strReplaceAux (pat repl : List Char) : Nat → List Char → List Char
  | _, [] => []
  | 0, l => l
  | fuel + 1, c :: rest =>
    if pat.isPrefixOf (c :: rest) && !pat.isEmpty then
      repl ++ strReplaceAux pat repl fuel (rest.drop (pat.length - 1))
    else
      c :: strReplaceAux pat repl fuel rest

/-- Python content.replace(pat, repl): the fuel is the length of the
input, which always suffices since every recursive call shortens the
list. -/
def strReplace (pat repl l : List Char) : List Char :=
  strReplaceAux pat repl l.length l

/-- The checkmark marker U+2713, replaced by a space on line 14. -/
def checkmark : Char := '✓'

/-- The cross marker U+274C, replaced by X on line 15. -/
def cross : Char := '❌'

/-- The clipboard marker U+1F4CB, replaced by an equals sign on line 18. -/
def emojiClipboard : Char := '📋'

/-- The magnifier marker U+1F50D, replaced by a left angle bracket on line 19. -/
def emojiMagnifier : Char := '🔍'

/-- The broom marker U+1F9F9, replaced by a right angle bracket on line 20. -/
def emojiBroom : Char := '🧹'

/-- The chart marker U+1F4CA, replaced by the digit nine on line 21. -/
def emojiChart : Char := '📊'

/-- The straight ASCII double quote U+0022. -/
def dquote : Char := Char.ofNat 34

/-- The straight ASCII apostrophe U+0027. -/
def apos : Char := Char.ofNat 39

/-- The six marker characters the script substitutes away. -/
def markers : List Char :=
  [checkmark, cross, emojiClipboard, emojiMagnifier, emojiBroom, emojiChart]

/-- The pattern actually substituted by lines 24 and 25 of the script:
the characters standing between the two triple-quote delimiters, namely
the rest of line 24 (including its comment), the newline, and the start
of line 25 up to the opening parenthesis. -/
def quotePat : List Char :=
  [',', ' ', dquote, apos, dquote, ')', ' ', ' ', '#', ' ',
   'L', 'E', 'F', 'T', ' ', 'S', 'I', 'N', 'G', 'L', 'E', ' ',
   'Q', 'U', 'O', 'T', 'A', 'T', 'I', 'O', 'N', ' ', 'M', 'A', 'R', 'K',
   '\n',
   'c', 'o', 'n', 't', 'e', 'n', 't', ' ', '=', ' ',
   'c', 'o', 'n', 't', 'e', 'n', 't', '.',
   'r', 'e', 'p', 'l', 'a', 'c', 'e', '(']

/-- The length of a maximal space run after the collapse on line 34:
re.sub matches each maximal run of three or more spaces greedily and
replaces it by exactly two spaces; shorter runs are not matched. -/
def collapsedRun (n : Nat) : List Char :=
  List.replicate (if 3 ≤ n then 2 else n) ' '

/-- Embedding of re.sub applied to the three-or-more-spaces regex with a
two-space replacement (line 34): n counts the spaces of the run being
scanned; at the end of a run the run is emitted collapsed. -/
def collapseAux : Nat → List Char → List Char
  | n, [] => collapsedRun n
  | n, c :: rest =>
    if c = ' ' then collapseAux (n + 1) rest
    else collapsedRun n ++ c :: collapseAux 0 rest

/-- The whitespace-collapse step, line 34. -/
def collapseSpaces (l : List Char) : List Char := collapseAux 0 l

/-- The line-ending normalization step, lines 30 and 31: CRLF to LF,
then remaining CR to LF. -/
def lineEndingNormalize (l : List Char) : List Char :=
  strReplace ['\r'] ['\n'] (strReplace ['\r', '\n'] ['\n'] l)

/-- Only the line-ending normalization and whitespace-collapse steps,
the comparison point named by the spec for marker-free inputs. -/
def lineWsOnly (l : List Char) : List Char :=
  collapseSpaces (lineEndingNormalize l)

/-- The full content transformation of the script, lines 14 to 34, in
source order: marker restoration, operator restoration, the quote
statements as parsed, line-ending normalization, whitespace collapse. -/
def restoreContent (input : List Char) : List Char :=
  let c1 := strReplace [checkmark] [' '] input
  let c2 := strReplace [cross] ['X'] c1
  let c3 := strReplace [emojiClipboard] ['='] c2
  let c4 := strReplace [emojiMagnifier] ['<'] c3
  let c5 := strReplace [emojiBroom] ['>'] c4
  let c6 := strReplace [emojiChart] ['9'] c5
  let c7 := strReplace quotePat [apos] c6
  let c8 := strReplace [dquote] [dquote] c7
  let c9 := strReplace [dquote] [dquote] c8
  collapseSpaces (lineEndingNormalize c9)

/-- The operator substitution table of lines 18 to 21, in source order. -/
def operatorTable : List (Char × Char) :=
  [(emojiClipboard, '='), (emojiMagnifier, '<'), (emojiBroom, '>'), (emojiChart, '9')]

/-- Applying a list of single-character substitutions in the order given. -/
def applyOperatorSubs (table : List (Char × Char)) (l : List Char) : List Char :=
  table.foldl (fun acc pr => strReplace [pr.1] [pr.2] acc) l

/-- The effect of one single-character substitution on one character. -/
def charSub (pr : Char × Char) (c : Char) : Char :=
  if c = pr.1 then pr.2 else c

/-- The hard-coded source path of line 10. -/
def srcPath : String := "tests/e2e/stage-gather-scrape.test.ts.broken"

/-- The hard-coded destination path of line 37. -/
def destPath : String := "tests/e2e/stage-gather-scrape.test.ts"

/-- The two error classes of the spec: a missing or unreadable source,
and an unwritable destination. -/
inductive ScriptError where
  | resourceNotFound : ScriptError
  | resourceWriteError : ScriptError

/-- A filesystem state: each path holds either nothing or a content. -/
def FileSystem : Type := String → Option (List Char)

/-- The whole script run against a filesystem state: read the source
(lines 10 and 11, failing like the Python open call when the path holds
nothing, before anything is written), transform (lines 14 to 34), then
write the destination in full (lines 37 and 38). -/
def runScript (fs : FileSystem) : Except ScriptError Unit × FileSystem :=
  match fs srcPath with
  | none => (Except.error ScriptError.resourceNotFound, fs)
  | some content =>
      (Except.ok (), fun p => if p = destPath then some (restoreContent content) else fs p)

/-- A filesystem holding no file at all. -/
def emptyFS : FileSystem := fun _ => none

/-- The concrete input exhibiting non-idempotence: quotePat with its one
newline replaced by a carriage return.  A first run turns the carriage
return into a newline, producing quotePat itself; a second run then
substitutes quotePat away. -/
def idempotenceBreaker : List Char :=
  [',', ' ', dquote, apos, dquote, ')', ' ', ' ', '#', ' ',
   'L', 'E', 'F', 'T', ' ', 'S', 'I', 'N', 'G', 'L', 'E', ' ',
   'Q', 'U', 'O', 'T', 'A', 'T', 'I', 'O', 'N', ' ', 'M', 'A', 'R', 'K',
   '\r',
   'c', 'o', 'n', 't', 'e', 'n', 't', ' ', '=', ' ',
   'c', 'o', 'n', 't', 'e', 'n', 't', '.',
   'r', 'e', 'p', 'l', 'a', 'c', 'e', '(']

theorem strReplaceAux_congr (pat repl : List Char) :
    ∀ f₁ f₂ l, l.length ≤ f₁ → l.length ≤ f₂ →
      strReplaceAux pat repl f₁ l = strReplaceAux pat repl f₂ l := by
  intro f₁
  induction f₁ with
  | zero =>
    intro f₂ l h₁ _
    have hl : l = [] := List.eq_nil_of_length_eq_zero (Nat.le_zero.mp h₁)
    subst hl
    cases f₂ <;> rfl
  | succ f ih =>
    intro f₂ l h₁ h₂
    cases l with
    | nil => cases f₂ <;> rfl
    | cons c rest =>
      cases f₂ with
      | zero => simp at h₂
      | succ f' =>
        simp only [strReplaceAux]
        by_cases hcond : (pat.isPrefixOf (c :: rest) && !pat.isEmpty) = true
        · rw [if_pos hcond, if_pos hcond]
          have hdrop : (rest.drop (pat.length - 1)).length ≤ rest.length := by
            rw [List.length_drop]
            omega
          have hr : rest.length ≤ f := Nat.le_of_succ_le_succ h₁
          have hr' : rest.length ≤ f' := Nat.le_of_succ_le_succ h₂
          exact congrArg (repl ++ ·) (ih f' _ (le_trans hdrop hr) (le_trans hdrop hr'))
        · rw [if_neg hcond, if_neg hcond]
          exact congrArg (c :: ·)
            (ih f' rest (Nat.le_of_succ_le_succ h₁) (Nat.le_of_succ_le_succ h₂))

theorem strReplace_cons (pat repl : List Char) (c : Char) (rest : List Char) :
    strReplace pat repl (c :: rest) =
      if pat.isPrefixOf (c :: rest) && !pat.isEmpty then
        repl ++ strReplace pat repl (rest.drop (pat.length - 1))
      else
        c :: strReplace pat repl rest := by
  show strReplaceAux pat repl (rest.length + 1) (c :: rest) = _
  simp only [strReplaceAux]
  by_cases hcond : (pat.isPrefixOf (c :: rest) && !pat.isEmpty) = true
  · rw [if_pos hcond, if_pos hcond]
    refine congrArg (repl ++ ·) (strReplaceAux_congr pat repl _ _ _ ?_ le_rfl)
    rw [List.length_drop]
    omega
  · rw [if_neg hcond, if_neg hcond]
    rfl

theorem strReplace_single (p r : Char) (l : List Char) :
    strReplace [p] [r] l = l.map (fun c => if c = p then r else c) := by
  induction l with
  | nil => rfl
  | cons c rest ih =>
    rw [strReplace_cons]
    by_cases h : c = p
    · subst h
      have hpre : [c].isPrefixOf (c :: rest) = true := by
        simp [List.isPrefixOf]
      simp [hpre, ih]
    · have hpre : [p].isPrefixOf (c :: rest) = false := by
        simp [List.isPrefixOf]
        exact fun e => h e.symm
      simp [hpre, ih, h]

theorem strReplace_no_occurrence (pat repl l : List Char) (h : ¬ (pat <:+: l)) :
    strReplace pat repl l = l := by
  induction l with
  | nil => rfl
  | cons c rest ih =>
    have hcond : (pat.isPrefixOf (c :: rest) && !pat.isEmpty) = false := by
      by_cases hp : pat = []
      · subst hp
        simp [List.isEmpty]
      · have hpre : pat.isPrefixOf (c :: rest) = false := by
          rw [Bool.eq_false_iff]
          intro htrue
          exact h ( List.IsPrefix.isInfix ( List.isPrefixOf_iff_prefix.mp htrue))
        simp [hpre]
    rw [strReplace_cons, hcond]
    simp only [Bool.false_eq_true, if_false]
    exact congrArg (c :: ·) (ih (fun hi => h ( List.infix_cons hi)))

theorem strReplace_single_of_not_mem (p r : Char) (l : List Char) (h : p ∉ l) :
    strReplace [p] [r] l = l := by
  rw [strReplace_single]
  conv_rhs => rw [← List.map_id l]
  apply List.map_congr_left
  intro a ha
  have hne : a ≠ p := fun e => h (e ▸ ha)
  simp [hne]

theorem strReplace_self (c : Char) (l : List Char) : strReplace [c] [c] l = l := by
  rw [strReplace_single]
  conv_rhs => rw [← List.map_id l]
  apply List.map_congr_left
  intro a _
  by_cases h : a = c <;> simp [h]

theorem collapseAux_cons_space (n : Nat) (rest : List Char) :
    collapseAux n (' ' :: rest) = collapseAux (n + 1) rest := by
  simp [collapseAux]

theorem collapseAux_cons_not_space (n : Nat) (c : Char) (hc : c ≠ ' ') (rest : List Char) :
    collapseAux n (c :: rest) = collapsedRun n ++ c :: collapseAux 0 rest := by
  simp only [collapseAux, if_neg hc]

theorem collapseAux_nil (n : Nat) : collapseAux n [] = collapsedRun n := rfl

theorem collapsedRun_zero : collapsedRun 0 = [] := by
  simp [collapsedRun]

theorem collapseAux_replicate (m : Nat) : ∀ (k : Nat) (l : List Char),
    collapseAux k (List.replicate m ' ' ++ l) = collapseAux (k + m) l := by
  induction m with
  | zero =>
    intro k l
    simp [List.replicate]
  | succ m ih =>
    intro k l
    rw [List.replicate_succ, List.cons_append, collapseAux_cons_space, ih (k + 1) l]
    congr 1
    omega

theorem collapseAux_head_not_space (n : Nat) (l : List Char) (h : l.head? ≠ some ' ') :
    collapseAux n l = collapsedRun n ++ collapseAux 0 l := by
  cases l with
  | nil => simp [collapseAux, collapsedRun]
  | cons c rest =>
    have hc : c ≠ ' ' := by simpa using h
    rw [collapseAux_cons_not_space n c hc, collapseAux_cons_not_space 0 c hc,
      collapsedRun_zero, List.nil_append]

theorem collapseAux_append_last_not_space :
    ∀ (a : List Char), a ≠ [] → a.getLast? ≠ some ' ' →
      ∀ (k : Nat) (l : List Char),
        collapseAux k (a ++ l) = collapseAux k a ++ collapseAux 0 l := by
  intro a
  induction a with
  | nil =>
    intro h
    exact absurd rfl h
  | cons c a' ih =>
    intro _ hlast k l
    cases a' with
    | nil =>
      have hc : c ≠ ' ' := by simpa using hlast
      rw [List.singleton_append, collapseAux_cons_not_space k c hc]
      have hsing : collapseAux k [c] = collapsedRun k ++ [c] := by
        rw [collapseAux_cons_not_space k c hc, collapseAux_nil, collapsedRun_zero]
      rw [hsing]
      simp
    | cons d t =>
      have hlast' : (d :: t).getLast? ≠ some ' ' := by
        rwa [ List.getLast?_cons_cons] at hlast
      by_cases hc : c = ' '
      · subst hc
        rw [List.cons_append, collapseAux_cons_space, collapseAux_cons_space,
          ih (by simp) hlast' (k + 1) l]
      · rw [List.cons_append, collapseAux_cons_not_space k c hc,
          collapseAux_cons_not_space k c hc, ih (by simp) hlast' 0 l]
        simp

theorem not_triple_prepend (c : Char) (hc : c ≠ ' ') (M : List Char)
    (hM : ¬ ([' ', ' ', ' '] <:+: M)) :
    ∀ k, k ≤ 2 → ¬ ([' ', ' ', ' '] <:+: List.replicate k ' ' ++ c :: M) := by
  intro k hk
  have hc' : (' ' : Char) ≠ c := fun e => hc e.symm
  interval_cases k <;>
    simp [ List.infix_cons_iff, List.cons_prefix_cons, hc', hM, List.replicate]

theorem collapsedRun_length_le (n : Nat) : (collapsedRun n).length ≤ 2 := by
  simp only [collapsedRun, List.length_replicate]
  split <;> omega

theorem collapseAux_no_triple : ∀ (l : List Char) (n : Nat),
    ¬ ([' ', ' ', ' '] <:+: collapseAux n l) := by
  intro l
  induction l with
  | nil =>
    intro n h
    have hlen := h.length_le
    rw [collapseAux_nil] at hlen
    have := collapsedRun_length_le n
    simp at hlen
    omega
  | cons c rest ih =>
    intro n
    by_cases hc : c = ' '
    · subst hc
      rw [collapseAux_cons_space]
      exact ih (n + 1)
    · rw [collapseAux_cons_not_space n c hc]
      have h2 : (if 3 ≤ n then 2 else n) ≤ 2 := by split <;> omega
      exact not_triple_prepend c hc _ (ih 0) _ h2

/-- C4: in the whitespace-collapse step, every maximal run of n consecutive
spaces (delimited by a non-space character or an end of the text on both
sides) is replaced by exactly two spaces when n is at least three and is
left unchanged when n is one or two, the rest of the text being collapsed
independently; in particular a run of exactly two spaces is preserved. -/
theorem collapse_maximal_run (a b : List Char) (n : Nat)
    (ha : a.getLast? ≠ some ' ') (hb : b.head? ≠ some ' ') :
    collapseSpaces (a ++ List.replicate n ' ' ++ b) =
      collapseSpaces a ++ List.replicate (if 3 ≤ n then 2 else n) ' ' ++ collapseSpaces b := by
  have hrun : collapseAux 0 (List.replicate n ' ' ++ b) = collapsedRun n ++ collapseAux 0 b := by
    rw [collapseAux_replicate n 0 b, Nat.zero_add]
    exact collapseAux_head_not_space n b hb
  cases a with
  | nil =>
    simp only [List.nil_append, collapseSpaces]
    rw [hrun]
    simp [collapseAux_nil, collapsedRun_zero, collapsedRun]
  | cons c a' =>
    show collapseAux 0 _ = collapseAux 0 _ ++ _ ++ collapseAux 0 _
    rw [List.append_assoc,
      collapseAux_append_last_not_space (c :: a') (by simp) ha 0 _, hrun]
    simp [collapsedRun, List.append_assoc]

theorem charSub_comm (x y : Char × Char) (hxy : x.1 ≠ y.1) (hx : x.2 ≠ y.1)
    (hy : y.2 ≠ x.1) (z : Char) :
    charSub y (charSub x z) = charSub x (charSub y z) := by
  by_cases h1 : z = x.1 <;> by_cases h2 : z = y.1 <;>
    simp_all [charSub]

theorem applyOperatorSubs_eq_map (table : List (Char × Char)) :
    ∀ l : List Char,
      applyOperatorSubs table l =
        l.map (fun c => table.foldl (fun x pr => charSub pr x) c) := by
  induction table with
  | nil =>
    intro l
    simp [applyOperatorSubs]
  | cons pr t ih =>
    intro l
    have hstep : applyOperatorSubs (pr :: t) l =
        applyOperatorSubs t (strReplace [pr.1] [pr.2] l) := rfl
    rw [hstep, ih, strReplace_single, List.map_map]
    rfl

/-- C7: the four operator-restoration substitutions commute: applying the
four single-character replacements of lines 18 to 21 in any order yields
the same result on every input, because the four marker characters are
mutually distinct code points and no replacement output is another
replacement pattern. -/
theorem operator_subs_any_order (table : List (Char × Char))
    (hp : table.Perm operatorTable) (l : List Char) :
    applyOperatorSubs table l = applyOperatorSubs operatorTable l := by
  rw [applyOperatorSubs_eq_map, applyOperatorSubs_eq_map]
  apply List.map_congr_left
  intro c _
  apply List.Perm.foldl_eq' hp
  intro x hxmem y hymem z
  have hx' : x ∈ operatorTable := hp.mem_iff.mp hxmem
  have hy' : y ∈ operatorTable := hp.mem_iff.mp hymem
  fin_cases hx' <;> fin_cases hy' <;>
    first
      | rfl
      | exact charSub_comm _ _ (by decide) (by decide) (by decide) z

/-- C1: the full transformation is not idempotent: on the concrete input
idempotenceBreaker (the line 24 pattern with its newline replaced by a
carriage return) one application yields quotePat, which a second
application replaces by a single apostrophe. -/
theorem restore_not_idempotent :
    ∃ x : List Char, restoreContent (restoreContent x) ≠ restoreContent x :=
  ⟨idempotenceBreaker, by decide⟩

/-- C2 counterexample: quotePat contains no marker character, yet the full
transformation maps it to a single apostrophe while line-ending
normalization plus whitespace collapse alone leave it unchanged, so the
claim fails as stated. -/
theorem quote_step_breaks_marker_free :
    (∀ m ∈ markers, m ∉ quotePat) ∧ restoreContent quotePat ≠ lineWsOnly quotePat := by
  decide

/-- C2 amended: on every input containing no marker character and no
occurrence of the 63-character pattern substituted by lines 24 and 25,
the full transformation coincides with line-ending normalization
followed by whitespace collapse (the remaining quote substitutions
replace a straight double quote by itself and never change anything). -/
theorem restore_marker_free_eq_line_ws (l : List Char)
    (hm : ∀ m ∈ markers, m ∉ l) (hq : ¬ (quotePat <:+: l)) :
    restoreContent l = lineWsOnly l := by
  have h1 := strReplace_single_of_not_mem checkmark ' ' l
    (hm checkmark (by simp [markers]))
  have h2 := strReplace_single_of_not_mem cross 'X' l
    (hm cross (by simp [markers]))
  have h3 := strReplace_single_of_not_mem emojiClipboard '=' l
    (hm emojiClipboard (by simp [markers]))
  have h4 := strReplace_single_of_not_mem emojiMagnifier '<' l
    (hm emojiMagnifier (by simp [markers]))
  have h5 := strReplace_single_of_not_mem emojiBroom '>' l
    (hm emojiBroom (by simp [markers]))
  have h6 := strReplace_single_of_not_mem emojiChart '9' l
    (hm emojiChart (by simp [markers]))
  have h7 := strReplace_no_occurrence quotePat [apos] l hq
  have h8 := strReplace_self dquote l
  simp only [restoreContent, lineWsOnly, h1, h2, h3, h4, h5, h6, h7, h8]

/-- C2 amended witness: a concrete marker-free input without the line 24
pattern on which the two pipelines agree. -/
theorem restore_marker_free_eq_line_ws_witness :
    (∀ m ∈ markers, m ∉ String.data "ab   cd")
    ∧ ¬ (quotePat <:+: String.data "ab   cd")
    ∧ restoreContent (String.data "ab   cd") = lineWsOnly (String.data "ab   cd") :=
  ⟨by decide, by decide,
    restore_marker_free_eq_line_ws (String.data "ab   cd") (by decide) (by decide)⟩

/-- C3: on the input a followed by three checkmarks followed by b, the
checkmark-restoration step alone yields a, three spaces, b; and the full
transformation yields a, exactly two spaces, b, because the
whitespace-collapse step runs last and collapses the spaces introduced
by checkmark restoration like pre-existing ones. -/
theorem restore_checkmark_run_scenario :
    strReplace [checkmark] [' '] (String.data "a✓✓✓b") = String.data "a   b"
    ∧ restoreContent (String.data "a✓✓✓b") = String.data "a  b" := by
  decide

/-- C4 witness: a run of exactly two spaces between non-space characters
is preserved by the collapse step. -/
theorem collapse_maximal_run_witness :
    (['x'].getLast? ≠ some ' ') ∧ (['y'].head? ≠ some ' ')
    ∧ collapseSpaces (['x'] ++ List.replicate 2 ' ' ++ ['y']) =
        collapseSpaces ['x'] ++ List.replicate (if 3 ≤ 2 then 2 else 2) ' ' ++ collapseSpaces ['y'] :=
  ⟨by decide, by decide, collapse_maximal_run ['x'] ['y'] 2 (by decide) (by decide)⟩

/-- C5: when the source path holds no file, the run fails with the
resource-not-found error and the filesystem, in particular the
destination path, is left exactly as it was: the write is only reached
after the read succeeds. -/
theorem restore_missing_source (fs : FileSystem) (h : fs srcPath = none) :
    (runScript fs).1 = Except.error ScriptError.resourceNotFound
    ∧ (runScript fs).2 = fs := by
  unfold runScript
  rw [h]
  exact ⟨rfl, rfl⟩

/-- C5 witness: on the filesystem holding no file at all the run fails
with resource-not-found and changes nothing. -/
theorem restore_missing_source_witness :
    emptyFS srcPath = none
    ∧ (runScript emptyFS).1 = Except.error ScriptError.resourceNotFound
    ∧ (runScript emptyFS).2 = emptyFS :=
  ⟨rfl, (restore_missing_source emptyFS rfl).1, (restore_missing_source emptyFS rfl).2⟩

/-- C6: line-ending normalization leaves no carriage return in its output
on any input, and on the sample input with a CRLF pair and a lone CR it
produces the LF-only text, both through the step itself and through the
full transformation. -/
theorem line_ending_removes_cr :
    (∀ l : List Char, '\r' ∉ lineEndingNormalize l)
    ∧ lineEndingNormalize (String.data "line1\r\nline2\rline3") =
        String.data "line1\nline2\nline3"
    ∧ restoreContent (String.data "line1\r\nline2\rline3") =
        String.data "line1\nline2\nline3" := by
  refine ⟨?_, by decide, by decide⟩
  intro l
  unfold lineEndingNormalize
  rw [strReplace_single]
  intro hmem
  rcases List.mem_map.mp hmem with ⟨a, _, ha⟩
  by_cases h : a = '\r' <;> simp [h] at ha

/-- C6 witness: a concrete instance of the no-carriage-return conclusion. -/
theorem line_ending_removes_cr_witness :
    '\r' ∉ lineEndingNormalize (String.data "a\rb") :=
  line_ending_removes_cr.1 (String.data "a\rb")

/-- C7 witness: the operator substitutions applied in reverse source
order agree with source order on a concrete input holding all four
markers. -/
theorem operator_subs_any_order_witness :
    applyOperatorSubs
        [(emojiChart, '9'), (emojiBroom, '>'), (emojiMagnifier, '<'), (emojiClipboard, '=')]
        (String.data "a📊🧹🔍📋b")
      = applyOperatorSubs operatorTable (String.data "a📊🧹🔍📋b") :=
  operator_subs_any_order _ (by decide) _

/-- C8: the full transformation leaves the curly double quotes of the
input unchanged instead of replacing them with the straight ASCII double
quote: the quote statements of the script as parsed never mention a
curly character. -/
theorem curly_double_quotes_unchanged :
    restoreContent (String.data "“hi”") = String.data "“hi”"
    ∧ restoreContent (String.data "“hi”") ≠ [dquote, 'h', 'i', dquote] := by
  decide

/-- C9: the output of the full transformation can contain a curly
quotation character: the right single curly quote passes through every
substitution untouched. -/
theorem curly_quote_survives :
    restoreContent ['’'] = ['’'] ∧ '’' ∈ restoreContent ['’'] := by
  decide

/-- C10: the output of the full transformation never contains a run of
three or more consecutive spaces, since the collapse step runs last and
leaves every maximal run at two spaces or fewer. -/
theorem restore_no_triple_space (l : List Char) :
    ¬ ([' ', ' ', ' '] <:+: restoreContent l) :=
  collapseAux_no_triple _ 0

/-- C10 witness: a concrete instance of the no-triple-space conclusion. -/
theorem restore_no_triple_space_witness :
    ¬ ([' ', ' ', ' '] <:+: restoreContent (String.data "a     b")) :=
  restore_no_triple_space (String.data "a     b")
